import Mathlib

/-!
Shallow embedding of `src/layout/actions.rs`: the layout action buffer
(`LayoutActionList`), its optimizing `add`/`extend`/`add_layout` operations,
and the compact serializer of `LayoutAction`, together with theorems about
the claims of the specification.
-/

namespace Typst

/-- Modelled from the spec: a length, "expressed in a length unit convertible
to printable points" (`crate::size::Size` is not part of the sources given).
We represent a size directly by its value in points, as a rational, so
`to_pt` is the identity and is inlined below. -/
abbrev Size : Type := ℚ

/-- Modelled from the spec: a 2D vector of sizes (`crate::size::Size2D`),
with componentwise addition and a zero. -/
structure Size2D where
  x : Size
  y : Size
deriving DecidableEq

def Size2D.zero : Size2D := ⟨0, 0⟩

instance : Add Size2D := ⟨fun a b => ⟨a.x + b.x, a.y + b.y⟩⟩

@[simp] theorem Size2D.add_x (a b : Size2D) : (a + b).x = a.x + b.x := rfl

@[simp] theorem Size2D.add_y (a b : Size2D) : (a + b).y = a.y + b.y := rfl

/-- A layouting action (`enum LayoutAction`). -/
inductive LayoutAction where
  /-- Move to an absolute position. -/
  | MoveAbsolute (s : Size2D)
  /-- Set the font by index and font size. -/
  | SetFont (index : ℕ) (size : Size)
  /-- Write text starting at the current position. -/
  | WriteText (text : String)
  /-- Visualize a box for debugging purposes (position and size). -/
  | DebugBox (pos size : Size2D)
deriving DecidableEq

/-- Modelled from the spec: the `Layout` entity (`super::Layout`, not among
the sources given) "is consumed only through its exposed sequence of actions,
its bounding size, and a debug-visualization flag", which are exactly the
three fields `add_layout` reads. -/
structure Layout where
  debug_render : Bool
  dimensions : Size2D
  actions : List LayoutAction

/-- `std::usize::MAX` on a 64-bit platform. -/
def USIZE_MAX : ℕ := 2 ^ 64 - 1

/-- A sequence of layouting actions (`struct LayoutActionList`). -/
structure LayoutActionList where
  origin : Size2D
  actions : List LayoutAction
  active_font : ℕ × Size
  next_pos : Option Size2D
  next_font : Option (ℕ × Size)
deriving DecidableEq

namespace LayoutActionList

/-- `LayoutActionList::new`. -/
def new : LayoutActionList :=
  { origin := Size2D.zero
    actions := []
    active_font := (USIZE_MAX, 0)
    next_pos := none
    next_font := none }

/-- `LayoutActionList::flush_position`: append a cached move action if one
is cached. -/
def flush_position (l : LayoutActionList) : LayoutActionList :=
  match l.next_pos with
  | some target =>
      { l with next_pos := none
               actions := l.actions ++ [.MoveAbsolute target] }
  | none => l

/-- `LayoutActionList::flush_font`: append a cached font-setting action if
one is cached and differs from the active font. -/
def flush_font (l : LayoutActionList) : LayoutActionList :=
  match l.next_font with
  | some f =>
      if f ≠ l.active_font then
        { l with next_font := none
                 actions := l.actions ++ [.SetFont f.1 f.2]
                 active_font := f }
      else
        { l with next_font := none }
  | none => l

/-- `LayoutActionList::add`. The Rust `_` arm covers exactly `WriteText`. -/
def add (l : LayoutActionList) : LayoutAction → LayoutActionList
  | .MoveAbsolute pos => { l with next_pos := some (l.origin + pos) }
  | .DebugBox pos size =>
      { l with actions := l.actions ++ [.DebugBox (l.origin + pos) size] }
  | .SetFont index size => { l with next_font := some (index, size) }
  | .WriteText t =>
      let l1 := l.flush_position
      let l2 := l1.flush_font
      { l2 with actions := l2.actions ++ [.WriteText t] }

/-- `LayoutActionList::extend`: add a series of actions. -/
def extend (l : LayoutActionList) (acts : List LayoutAction) : LayoutActionList :=
  acts.foldl add l

/-- `LayoutActionList::add_layout`: add a layout at a position. -/
def add_layout (l : LayoutActionList) (position : Size2D) (layout : Layout) :
    LayoutActionList :=
  let l1 := l.flush_position
  let l2 := { l1 with origin := position, next_pos := some position }
  let l3 :=
    if layout.debug_render then
      { l2 with actions := l2.actions ++ [.DebugBox position layout.dimensions] }
    else l2
  l3.extend layout.actions

/-- `LayoutActionList::is_empty`: whether there are any actions in this list. -/
def is_empty (l : LayoutActionList) : Bool := l.actions.isEmpty

/-- `LayoutActionList::into_vec`: return the list of actions as a vector. -/
def into_vec (l : LayoutActionList) : List LayoutAction := l.actions

end LayoutActionList

/-! ### Serialization

`LayoutAction::serialize` writes move operands with Rust's `{:.4}` float
formatting and font-size / debug-box operands with Rust's `{}` (Display)
float formatting.  The two decimal renderings below model those formatters
on the exactly-representable values this development evaluates them at. -/

/-- Left-pad the decimal digits of `n` with zeros to width `w`. -/
def padZeros (w : ℕ) (n : ℕ) : String :=
  let s := Nat.repr n
  String.mk (List.replicate (w - s.length) '0') ++ s

/-- Modelled from the spec: round `a / d` to the nearest natural number,
ties to even, as Rust's fixed-precision float formatting does at a tie. -/
def roundHalfEvenDiv (a d : ℕ) : ℕ :=
  let f := a / d
  let r := a % d
  if 2 * r < d then f
  else if d < 2 * r then f + 1
  else if f % 2 = 0 then f else f + 1

/-- Modelled from the spec: Rust's `{:.4}` formatting of a point value —
"exactly four decimal digits".  `q.num / q.den` is the value in points. -/
def formatFixed4 (q : ℚ) : String :=
  let n := roundHalfEvenDiv (q.num.natAbs * 10000) q.den
  (if q.num < 0 then "-" else "") ++ Nat.repr (n / 10000) ++ "." ++ padZeros 4 (n % 10000)

/-- Number of decimal digits needed to write a fraction with reduced
denominator `d` exactly, computed with fuel (every value of Rust's `f32`
needs at most 149; multiplying by ten divides the reduced denominator by
`gcd d 10`). -/
def fracDigits : ℕ → ℕ → ℕ
  | 0, _ => 0
  | fuel + 1, d => if d = 1 then 0 else fracDigits fuel (d / Nat.gcd d 10) + 1

/-- Modelled from the spec: Rust's `{}` (Display) formatting of a float,
"the unit's natural (unrounded) representation": the shortest exact decimal,
with no decimal point for whole numbers. -/
def formatNatural (q : ℚ) : String :=
  let k := fracDigits 200 q.den
  let n := q.num.natAbs * 10 ^ k / q.den
  (if q.num < 0 then "-" else "") ++ Nat.repr (n / 10 ^ k)
    ++ (if k = 0 then "" else "." ++ padZeros k (n % 10 ^ k))

/-- What `flush_position` appends: the pending move, if any. -/
def moveFlushList : Option Size2D → List LayoutAction
  | some p => [.MoveAbsolute p]
  | none => []

/-- What `flush_font` appends: the pending font, if any and if it differs
from the active font. -/
def fontFlushList : Option (ℕ × Size) → ℕ × Size → List LayoutAction
  | some f, af => if f = af then [] else [.SetFont f.1 f.2]
  | none, _ => []

/-- The active font after `flush_font`. -/
def newActiveFont : Option (ℕ × Size) → ℕ × Size → ℕ × Size
  | some f, _ => f
  | none, af => af

/-- `true` exactly on the configuration actions, the ones `add` only caches
(`MoveAbsolute` and `SetFont`). -/
def LayoutAction.isConfig : LayoutAction → Bool
  | .MoveAbsolute _ => true
  | .SetFont _ _ => true
  | .WriteText _ => false
  | .DebugBox _ _ => false

namespace LayoutActionList

theorem flush_position_eq (l : LayoutActionList) :
    l.flush_position =
      { l with actions := l.actions ++ moveFlushList l.next_pos, next_pos := none } := by
  obtain ⟨o, a, af, np, nf⟩ := l
  cases np <;> simp [flush_position, moveFlushList]

theorem flush_font_eq (l : LayoutActionList) :
    l.flush_font =
      { l with actions := l.actions ++ fontFlushList l.next_font l.active_font
               next_font := none
               active_font := newActiveFont l.next_font l.active_font } := by
  obtain ⟨o, a, af, np, nf⟩ := l
  cases nf with
  | none => simp [flush_font, fontFlushList, newActiveFont]
  | some f =>
      by_cases h : f = af <;>
        simp [flush_font, fontFlushList, newActiveFont, h]

theorem add_moveAbsolute (l : LayoutActionList) (p : Size2D) :
    l.add (.MoveAbsolute p) = { l with next_pos := some (l.origin + p) } := rfl

theorem add_setFont (l : LayoutActionList) (i : ℕ) (s : Size) :
    l.add (.SetFont i s) = { l with next_font := some (i, s) } := rfl

theorem add_debugBox (l : LayoutActionList) (p s : Size2D) :
    l.add (.DebugBox p s) =
      { l with actions := l.actions ++ [.DebugBox (l.origin + p) s] } := rfl

theorem add_writeText (l : LayoutActionList) (t : String) :
    l.add (.WriteText t) =
      { l with actions := l.actions ++ moveFlushList l.next_pos
                   ++ fontFlushList l.next_font l.active_font ++ [.WriteText t]
               next_pos := none
               next_font := none
               active_font := newActiveFont l.next_font l.active_font } := by
  obtain ⟨o, a, af, np, nf⟩ := l
  simp [add, flush_position_eq, flush_font_eq]

theorem extend_nil (l : LayoutActionList) : l.extend [] = l := rfl

theorem extend_cons (l : LayoutActionList) (a : LayoutAction) (as : List LayoutAction) :
    l.extend (a :: as) = (l.add a).extend as := rfl

end LayoutActionList

/-- `LayoutAction::serialize`, with `Size::to_pt` inlined (a `Size` is its
point value here): `m` operands use `{:.4}`, `f` and `b` operands use `{}`. -/
def LayoutAction.serialize : LayoutAction → String
  | .MoveAbsolute s => "m " ++ formatFixed4 s.x ++ " " ++ formatFixed4 s.y
  | .SetFont i s => "f " ++ Nat.repr i ++ " " ++ formatNatural s
  | .WriteText t => "w " ++ t
  | .DebugBox p s =>
      "b " ++ formatNatural p.x ++ " " ++ formatNatural p.y ++ " "
        ++ formatNatural s.x ++ " " ++ formatNatural s.y

@[simp] theorem Size2D.zero_add (a : Size2D) : Size2D.zero + a = a := by
  cases a
  show Size2D.mk (0 + _) (0 + _) = _
  simp

theorem add_layout_eq (l : LayoutActionList) (pos : Size2D) (lay : Layout) :
    l.add_layout pos lay =
      LayoutActionList.extend
        { l with actions := l.actions ++ moveFlushList l.next_pos
                    ++ (if lay.debug_render then [.DebugBox pos lay.dimensions] else [])
                 origin := pos
                 next_pos := some pos }
        lay.actions := by
  cases hd : lay.debug_render <;>
    simp [LayoutActionList.add_layout, LayoutActionList.flush_position_eq, hd]

/-! ### Claims -/

/-- C1: for every buffer state, appending `WriteText t` first flushes the
pending move (if present), then the pending font (committed only when it
differs from `active_font`, else silently discarded), then commits the
`WriteText` itself, in exactly that order; both pending slots end cleared
and `active_font` takes the pending font's value when one was cached. -/
theorem writeText_flush_order (l : LayoutActionList) (t : String) :
    (l.add (.WriteText t)).actions
        = l.actions ++ moveFlushList l.next_pos
            ++ fontFlushList l.next_font l.active_font ++ [.WriteText t]
      ∧ (l.add (.WriteText t)).next_pos = none
      ∧ (l.add (.WriteText t)).next_font = none
      ∧ (l.add (.WriteText t)).active_font
          = newActiveFont l.next_font l.active_font := by
  simp [LayoutActionList.add_writeText]

/-- C7: appending `DebugBox p s` immediately commits
`DebugBox (origin + p) s` and touches neither pending slot, the active font
nor the origin; a following content action still flushes the originally
cached pending move and font. -/
theorem debugBox_bypasses_flush (l : LayoutActionList) (p s : Size2D) (t : String) :
    (l.add (.DebugBox p s)).actions = l.actions ++ [.DebugBox (l.origin + p) s]
      ∧ (l.add (.DebugBox p s)).next_pos = l.next_pos
      ∧ (l.add (.DebugBox p s)).next_font = l.next_font
      ∧ (l.add (.DebugBox p s)).active_font = l.active_font
      ∧ (l.add (.DebugBox p s)).origin = l.origin
      ∧ ((l.add (.DebugBox p s)).add (.WriteText t)).actions
          = l.actions ++ [.DebugBox (l.origin + p) s] ++ moveFlushList l.next_pos
              ++ fontFlushList l.next_font l.active_font ++ [.WriteText t] := by
  simp [LayoutActionList.add_debugBox, LayoutActionList.add_writeText]

/-- C9: `into_vec` returns exactly the committed sequence; a pending move or
font that was cached but never flushed is silently discarded and never
appears in the returned sequence. -/
theorem into_vec_committed_only (l : LayoutActionList) (p : Size2D) (i : ℕ) (s : Size) :
    l.into_vec = l.actions
      ∧ (l.add (.MoveAbsolute p)).into_vec = l.into_vec
      ∧ (l.add (.SetFont i s)).into_vec = l.into_vec := by
  simp [LayoutActionList.into_vec, LayoutActionList.add_moveAbsolute,
    LayoutActionList.add_setFont]

/-- C3, counterexample: the sentinel `(usize::MAX, 0)` is itself a
representable `SetFont` argument, and a first `SetFont(usize::MAX, 0)` on a
fresh buffer is silently dropped by the flush triggered by a `WriteText`. -/
theorem first_setfont_dropped_at_sentinel :
    LayoutAction.SetFont USIZE_MAX 0 ∉
        ((LayoutActionList.new.add (.SetFont USIZE_MAX 0)).add
            (.WriteText "hi")).into_vec
      ∧ ((LayoutActionList.new.add (.SetFont USIZE_MAX 0)).add
            (.WriteText "hi")).into_vec = [.WriteText "hi"] := by
  exact ⟨by decide, by decide⟩

/-- C3, amended: for every font index and size other than the sentinel pair
`(usize::MAX, 0)` itself, appending `SetFont i s` to a fresh buffer and then
a `WriteText` commits `SetFont i s`: the initial `active_font` sentinel
equals no other font, so such a first `SetFont` is never silently dropped. -/
theorem first_setfont_committed (i : ℕ) (s : Size) (t : String)
    (h : (i, s) ≠ (USIZE_MAX, (0 : Size))) :
    ((LayoutActionList.new.add (.SetFont i s)).add (.WriteText t)).into_vec
      = [.SetFont i s, .WriteText t] := by
  simp [LayoutActionList.into_vec, LayoutActionList.add_setFont,
    LayoutActionList.add_writeText, LayoutActionList.new, moveFlushList,
    fontFlushList, h]

/-- Witness for the amended C3 at `SetFont 0 12` and `WriteText "hi"`. -/
theorem first_setfont_committed_witness :
    ((0 : ℕ), (12 : Size)) ≠ (USIZE_MAX, (0 : Size))
      ∧ ((LayoutActionList.new.add (.SetFont 0 12)).add (.WriteText "hi")).into_vec
          = [.SetFont 0 12, .WriteText "hi"] :=
  ⟨by decide, first_setfont_committed 0 12 "hi" (by decide)⟩

theorem actions_grow_add (l : LayoutActionList) (a : LayoutAction) :
    ∃ d, (l.add a).actions = l.actions ++ d := by
  cases a with
  | MoveAbsolute p => exact ⟨[], by simp [LayoutActionList.add_moveAbsolute]⟩
  | SetFont i s => exact ⟨[], by simp [LayoutActionList.add_setFont]⟩
  | DebugBox p s => exact ⟨_, by rw [LayoutActionList.add_debugBox]⟩
  | WriteText t =>
      exact ⟨moveFlushList l.next_pos ++ fontFlushList l.next_font l.active_font
          ++ [.WriteText t], by rw [LayoutActionList.add_writeText]; simp⟩

theorem actions_grow_extend (l : LayoutActionList) (acts : List LayoutAction) :
    ∃ d, (l.extend acts).actions = l.actions ++ d := by
  induction acts generalizing l with
  | nil => exact ⟨[], by simp [LayoutActionList.extend_nil]⟩
  | cons a as ih =>
      obtain ⟨d1, hd1⟩ := actions_grow_add l a
      obtain ⟨d2, hd2⟩ := ih (l.add a)
      exact ⟨d1 ++ d2, by
        rw [LayoutActionList.extend_cons, hd2, hd1, List.append_assoc]⟩

theorem actions_grow_add_layout (l : LayoutActionList) (pos : Size2D)
    (lay : Layout) : ∃ d, (l.add_layout pos lay).actions = l.actions ++ d := by
  rw [add_layout_eq]
  obtain ⟨d, hd⟩ := actions_grow_extend
    { l with actions := l.actions ++ moveFlushList l.next_pos
                ++ (if lay.debug_render then [.DebugBox pos lay.dimensions] else [])
             origin := pos
             next_pos := some pos }
    lay.actions
  exact ⟨moveFlushList l.next_pos
      ++ (if lay.debug_render then [.DebugBox pos lay.dimensions] else []) ++ d,
    by rw [hd]; simp⟩

/-- C4: committing a `WriteText` or a `DebugBox` makes the buffer non-empty,
so `is_empty` can be true only before any such action has been committed
(the committed sequence only ever grows, under every operation); and
appending only configuration actions (`MoveAbsolute`/`SetFont`), which stay
pending, commits nothing and never changes `is_empty`. -/
theorem is_empty_only_before_content :
    (∀ (l : LayoutActionList) (t : String), (l.add (.WriteText t)).is_empty = false)
      ∧ (∀ (l : LayoutActionList) (p s : Size2D),
          (l.add (.DebugBox p s)).is_empty = false)
      ∧ (∀ (l : LayoutActionList) (acts : List LayoutAction),
          (∀ a ∈ acts, a.isConfig) →
            (l.extend acts).actions = l.actions
              ∧ (l.extend acts).is_empty = l.is_empty)
      ∧ (∀ (l : LayoutActionList) (a : LayoutAction),
          ∃ d, (l.add a).actions = l.actions ++ d)
      ∧ (∀ (l : LayoutActionList) (acts : List LayoutAction),
          ∃ d, (l.extend acts).actions = l.actions ++ d)
      ∧ ∀ (l : LayoutActionList) (pos : Size2D) (lay : Layout),
          ∃ d, (l.add_layout pos lay).actions = l.actions ++ d := by
  refine ⟨?_, ?_, ?_, actions_grow_add, actions_grow_extend, actions_grow_add_layout⟩
  · intro l t
    simp [LayoutActionList.is_empty, LayoutActionList.add_writeText]
  · intro l p s
    simp [LayoutActionList.is_empty, LayoutActionList.add_debugBox]
  · intro l acts h
    induction acts generalizing l with
    | nil => simp [LayoutActionList.extend_nil]
    | cons a as ih =>
        have ha : a.isConfig := h a (by simp)
        have has : ∀ x ∈ as, x.isConfig := fun x hx => h x (by simp [hx])
        rw [LayoutActionList.extend_cons]
        cases a with
        | MoveAbsolute p =>
            have := ih (l.add (.MoveAbsolute p)) has
            simpa [LayoutActionList.add_moveAbsolute, LayoutActionList.is_empty]
              using this
        | SetFont i s =>
            have := ih (l.add (.SetFont i s)) has
            simpa [LayoutActionList.add_setFont, LayoutActionList.is_empty]
              using this
        | WriteText t => simp [LayoutAction.isConfig] at ha
        | DebugBox p s => simp [LayoutAction.isConfig] at ha

/-- Witness for C4 at a `WriteText`, a `DebugBox` and a pair of pending-only
configuration appends. -/
theorem is_empty_only_before_content_witness :
    (LayoutActionList.new.add (.WriteText "a")).is_empty = false
      ∧ (LayoutActionList.new.add (.DebugBox ⟨1, 2⟩ ⟨3, 4⟩)).is_empty = false
      ∧ (LayoutActionList.new.extend
            [.MoveAbsolute ⟨1, 2⟩, .SetFont 3 10]).is_empty
          = LayoutActionList.new.is_empty :=
  ⟨is_empty_only_before_content.1 LayoutActionList.new "a",
    is_empty_only_before_content.2.1 LayoutActionList.new ⟨1, 2⟩ ⟨3, 4⟩,
    (is_empty_only_before_content.2.2.1 LayoutActionList.new
        [.MoveAbsolute ⟨1, 2⟩, .SetFont 3 10] (by decide)).2⟩

theorem extend_moves (ps : List Size2D) (l : LayoutActionList) (p : Size2D)
    (h : ps.getLast? = some p) :
    l.extend (ps.map .MoveAbsolute) = { l with next_pos := some (l.origin + p) } := by
  induction ps generalizing l with
  | nil => simp at h
  | cons q qs ih =>
      rw [List.map_cons, LayoutActionList.extend_cons, LayoutActionList.add_moveAbsolute]
      cases qs with
      | nil =>
          simp at h
          subst h
          simp [LayoutActionList.extend_nil]
      | cons r rs =>
          rw [List.getLast?_cons_cons] at h
          exact ih _ h

theorem extend_fonts (fs : List (ℕ × Size)) (l : LayoutActionList) (f : ℕ × Size)
    (h : fs.getLast? = some f) :
    l.extend (fs.map fun f0 => .SetFont f0.1 f0.2)
      = { l with next_font := some f } := by
  induction fs generalizing l with
  | nil => simp at h
  | cons q qs ih =>
      rw [List.map_cons, LayoutActionList.extend_cons, LayoutActionList.add_setFont]
      cases qs with
      | nil =>
          simp at h
          subst h
          simp [LayoutActionList.extend_nil]
      | cons r rs =>
          rw [List.getLast?_cons_cons] at h
          exact ih _ h

/-- C6: a run of `MoveAbsolute` appends with no intervening content action
commits nothing, and the flush triggered by a following `WriteText` commits
exactly one move, at the last appended position translated by the origin in
effect when it was cached; likewise a run of `SetFont` appends commits
nothing and leaves only the last pair pending for the next flush. -/
theorem repeated_config_last_wins (l : LayoutActionList) (ps : List Size2D)
    (fs : List (ℕ × Size)) (p : Size2D) (f : ℕ × Size) (t : String)
    (hp : ps.getLast? = some p) (hf : fs.getLast? = some f) :
    (l.extend (ps.map .MoveAbsolute)).actions = l.actions
      ∧ ((l.extend (ps.map .MoveAbsolute)).add (.WriteText t)).actions
          = l.actions ++ [.MoveAbsolute (l.origin + p)]
              ++ fontFlushList l.next_font l.active_font ++ [.WriteText t]
      ∧ (l.extend (fs.map fun f0 => .SetFont f0.1 f0.2)).actions = l.actions
      ∧ (l.extend (fs.map fun f0 => .SetFont f0.1 f0.2)).next_font = some f := by
  rw [extend_moves ps l p hp, extend_fonts fs l f hf]
  simp [LayoutActionList.add_writeText, moveFlushList]

/-- Witness for C6: two pending moves and two pending fonts, the last of
each winning. -/
theorem repeated_config_last_wins_witness :
    (LayoutActionList.new.extend
        ([⟨1, 1⟩, ⟨2, 2⟩].map .MoveAbsolute)).actions = LayoutActionList.new.actions
      ∧ ((LayoutActionList.new.extend ([⟨1, 1⟩, ⟨2, 2⟩].map .MoveAbsolute)).add
            (.WriteText "hi")).actions
          = LayoutActionList.new.actions
              ++ [.MoveAbsolute (LayoutActionList.new.origin + ⟨2, 2⟩)]
              ++ fontFlushList LayoutActionList.new.next_font
                  LayoutActionList.new.active_font
              ++ [.WriteText "hi"]
      ∧ (LayoutActionList.new.extend
            ([(3, 10), (4, 12)].map fun f0 => .SetFont f0.1 f0.2)).actions
          = LayoutActionList.new.actions
      ∧ (LayoutActionList.new.extend
            ([(3, 10), (4, 12)].map fun f0 => .SetFont f0.1 f0.2)).next_font
          = some (4, 12) :=
  repeated_config_last_wins LayoutActionList.new [⟨1, 1⟩, ⟨2, 2⟩]
    [(3, 10), (4, 12)] ⟨2, 2⟩ (4, 12) "hi" rfl rfl

/-- C2: composing, into a fresh buffer, a sub-layout whose action sequence
is `MoveAbsolute d` followed by `WriteText "x"` at position `P` yields,
after `into_vec`, a committed `MoveAbsolute (P + d)` immediately preceding
the `WriteText "x"`. -/
theorem sublayout_move_immediately_precedes_write (P d dims : Size2D) (dbg : Bool) :
    (LayoutActionList.new.add_layout P
        ⟨dbg, dims, [.MoveAbsolute d, .WriteText "x"]⟩).into_vec
      = (if dbg then [.DebugBox P dims] else [])
          ++ [.MoveAbsolute (P + d), .WriteText "x"] := by
  cases dbg <;>
    simp [LayoutActionList.add_layout, LayoutActionList.flush_position_eq,
      LayoutActionList.extend_cons, LayoutActionList.extend_nil,
      LayoutActionList.add_moveAbsolute, LayoutActionList.add_writeText,
      LayoutActionList.into_vec, LayoutActionList.new, moveFlushList, fontFlushList]

/-- C10: the compose operation itself (`add_layout` before replaying the
sub-layout's actions) flushes only the pending move and leaves `next_font`
and `active_font` unchanged; a `SetFont` appended before the compose stays
pending across it and is flushed — deduplicated against the pre-compose
`active_font` — at the first content action inside the sub-layout. -/
theorem add_layout_preserves_font_state (l : LayoutActionList)
    (pos dims : Size2D) (dbg : Bool) (i : ℕ) (s : Size) (t : String) :
    (l.add_layout pos ⟨dbg, dims, []⟩).next_font = l.next_font
      ∧ (l.add_layout pos ⟨dbg, dims, []⟩).active_font = l.active_font
      ∧ (l.add_layout pos ⟨dbg, dims, []⟩).actions
          = l.actions ++ moveFlushList l.next_pos
              ++ (if dbg then [.DebugBox pos dims] else [])
      ∧ ((l.add (.SetFont i s)).add_layout pos
            ⟨dbg, dims, [.WriteText t]⟩).actions
          = l.actions ++ moveFlushList l.next_pos
              ++ (if dbg then [.DebugBox pos dims] else [])
              ++ [.MoveAbsolute pos]
              ++ fontFlushList (some (i, s)) l.active_font
              ++ [.WriteText t] := by
  cases dbg <;>
    simp [LayoutActionList.add_layout, LayoutActionList.flush_position_eq,
      LayoutActionList.extend_cons, LayoutActionList.extend_nil,
      LayoutActionList.add_setFont, LayoutActionList.add_writeText, moveFlushList]

/-- Adjacent-pair constraint of C5: a committed `SetFont` is never
immediately followed by an identical `SetFont`. -/
def fontStep (a b : LayoutAction) : Prop :=
  ∀ i s, a = .SetFont i s → b ≠ .SetFont i s

/-- Invariant tying the committed stream to the active font: adjacent
committed actions never repeat a `SetFont`, and when the last committed
action is a `SetFont` it agrees with the active font. -/
def FontInvP (acts : List LayoutAction) (af : ℕ × Size) : Prop :=
  acts.Chain' fontStep ∧
    ∀ i s, acts.getLast? = some (.SetFont i s) → af = (i, s)

theorem fontInvP_push_nonfont {acts : List LayoutAction} {af : ℕ × Size}
    {b : LayoutAction} (af2 : ℕ × Size) (h : FontInvP acts af)
    (hb : ∀ i s, b ≠ LayoutAction.SetFont i s) :
    FontInvP (acts ++ [b]) af2 := by
  constructor
  · rw [List.chain'_append]
    refine ⟨h.1, List.chain'_singleton _, ?_⟩
    intro x hx y hy
    simp only [List.head?_cons, Option.mem_def, Option.some.injEq] at hy
    subst hy
    intro i s hxi
    exact hb i s
  · intro i s hlast
    rw [List.getLast?_concat] at hlast
    exact absurd (Option.some.inj hlast) (hb i s)

theorem fontInvP_push_font {acts : List LayoutAction} {af : ℕ × Size}
    (f : ℕ × Size) (h : FontInvP acts af) (hf : f ≠ af) :
    FontInvP (acts ++ [.SetFont f.1 f.2]) f := by
  obtain ⟨f1, f2⟩ := f
  constructor
  · rw [List.chain'_append]
    refine ⟨h.1, List.chain'_singleton _, ?_⟩
    intro x hx y hy
    simp only [List.head?_cons, Option.mem_def, Option.some.injEq] at hy
    subst hy
    intro i s hxi heq
    subst hxi
    have haf : af = (i, s) := h.2 i s hx
    injection heq with h1 h2
    subst h1
    subst h2
    exact hf haf.symm
  · intro i s hlast
    rw [List.getLast?_concat] at hlast
    injection Option.some.inj hlast with h1 h2
    subst h1
    subst h2
    rfl

theorem fontInvP_moveFlush {acts : List LayoutAction} {af : ℕ × Size}
    (np : Option Size2D) (h : FontInvP acts af) :
    FontInvP (acts ++ moveFlushList np) af := by
  cases np with
  | none => simpa [moveFlushList] using h
  | some p => exact fontInvP_push_nonfont _ h (by simp [moveFlushList])

theorem fontInvP_fontFlush {acts : List LayoutAction} {af : ℕ × Size}
    (nf : Option (ℕ × Size)) (h : FontInvP acts af) :
    FontInvP (acts ++ fontFlushList nf af) (newActiveFont nf af) := by
  cases nf with
  | none => simpa [fontFlushList, newActiveFont] using h
  | some f =>
      by_cases hfa : f = af
      · subst hfa
        simpa [fontFlushList, newActiveFont] using h
      · simpa [fontFlushList, newActiveFont, hfa] using fontInvP_push_font f h hfa

theorem fontInv_add {l : LayoutActionList} (a : LayoutAction)
    (h : FontInvP l.actions l.active_font) :
    FontInvP (l.add a).actions (l.add a).active_font := by
  cases a with
  | MoveAbsolute p => simpa [LayoutActionList.add_moveAbsolute] using h
  | SetFont i s => simpa [LayoutActionList.add_setFont] using h
  | DebugBox p s =>
      rw [LayoutActionList.add_debugBox]
      exact fontInvP_push_nonfont _ h (by simp)
  | WriteText t =>
      rw [LayoutActionList.add_writeText]
      exact fontInvP_push_nonfont _
        (fontInvP_fontFlush _ (fontInvP_moveFlush _ h)) (by simp)

theorem fontInv_extend {l : LayoutActionList} (acts : List LayoutAction)
    (h : FontInvP l.actions l.active_font) :
    FontInvP (l.extend acts).actions (l.extend acts).active_font := by
  induction acts generalizing l with
  | nil => simpa [LayoutActionList.extend_nil] using h
  | cons a as ih =>
      rw [LayoutActionList.extend_cons]
      exact ih (fontInv_add a h)

theorem fontInv_add_layout {l : LayoutActionList} (pos : Size2D) (lay : Layout)
    (h : FontInvP l.actions l.active_font) :
    FontInvP (l.add_layout pos lay).actions (l.add_layout pos lay).active_font := by
  rw [add_layout_eq]
  apply fontInv_extend
  cases hd : lay.debug_render <;> simp only [hd]
  · simpa using fontInvP_moveFlush l.next_pos h
  · simpa [← List.append_assoc] using
      fontInvP_push_nonfont l.active_font (fontInvP_moveFlush l.next_pos h)
        (by simp)

/-- The buffer states reachable from `new` through the public mutating
operations. -/
inductive Reachable : LayoutActionList → Prop
  | new : Reachable LayoutActionList.new
  | add (l : LayoutActionList) (a : LayoutAction) :
      Reachable l → Reachable (l.add a)
  | extend (l : LayoutActionList) (acts : List LayoutAction) :
      Reachable l → Reachable (l.extend acts)
  | add_layout (l : LayoutActionList) (pos : Size2D) (lay : Layout) :
      Reachable l → Reachable (l.add_layout pos lay)

theorem reachable_fontInv {l : LayoutActionList} (h : Reachable l) :
    FontInvP l.actions l.active_font := by
  induction h with
  | new => exact ⟨List.chain'_nil, by intro i s hc; simp [LayoutActionList.new] at hc⟩
  | add l a _ ih => exact fontInv_add a ih
  | extend l acts _ ih => exact fontInv_extend acts ih
  | add_layout l pos lay _ ih => exact fontInv_add_layout pos lay ih

/-- C5: in every reachable buffer, the committed sequence never contains a
`SetFont` immediately followed by another `SetFont` with the identical
(index, size) pair: duplicates are eliminated by comparison against
`active_font` at flush time. -/
theorem no_adjacent_duplicate_setfont (l : LayoutActionList) (h : Reachable l) :
    l.actions.Chain' fontStep :=
  (reachable_fontInv h).1

/-- Witness for C5 on a concrete reachable buffer holding a committed
`SetFont`. -/
theorem no_adjacent_duplicate_setfont_witness :
    Reachable ((LayoutActionList.new.add (.SetFont 3 12)).add (.WriteText "a"))
      ∧ ((LayoutActionList.new.add (.SetFont 3 12)).add
          (.WriteText "a")).actions.Chain' fontStep :=
  ⟨Reachable.add _ _ (Reachable.add _ _ Reachable.new),
    no_adjacent_duplicate_setfont _
      (Reachable.add _ _ (Reachable.add _ _ Reachable.new))⟩

/-- C8, counterexample: the claim that all position and size fields are
rendered with exactly four decimal digits fails for `DebugBox`, whose
operands the code writes with the plain Display rendering. -/
theorem debugbox_serialization_not_four_decimals :
    LayoutAction.serialize (.DebugBox ⟨mkRat 7 2, 4⟩ ⟨1, 2⟩) = "b 3.5 4 1 2"
      ∧ LayoutAction.serialize (.DebugBox ⟨mkRat 7 2, 4⟩ ⟨1, 2⟩)
          ≠ "b 3.5000 4.0000 1.0000 2.0000" :=
  ⟨by decide, by decide⟩

/-- C8, amended: `Move(3.5, 4.0)` serializes exactly to `m 3.5000 4.0000`;
move positions are rendered in points with exactly four decimal digits,
while `SetFont` size and `DebugBox` operands use the unit's natural
(unrounded) representation. -/
theorem serialize_compact_encoding :
    LayoutAction.serialize (.MoveAbsolute ⟨mkRat 7 2, 4⟩) = "m 3.5000 4.0000"
      ∧ LayoutAction.serialize (.SetFont 0 12) = "f 0 12"
      ∧ LayoutAction.serialize (.WriteText "hello") = "w hello"
      ∧ LayoutAction.serialize (.DebugBox ⟨mkRat 7 2, 4⟩ ⟨1, 2⟩) = "b 3.5 4 1 2" :=
  ⟨by decide, by decide, by decide, by decide⟩

end Typst
